import Mathlib

/-!
Verification of the bed2gff feature-derivation engine (src/lib.rs) against its
natural-language specification.  The Rust sources are shallowly embedded below:
machine integers become `Int`, vectors become `List Int`, panics and fallible
operations become `Option`.  The record and codon value types live in the
missing `bed.rs`/`codon.rs` modules and are modelled from the spec's data
model; every algorithm is translated from `src/lib.rs` itself.
-/

set_option maxHeartbeats 1000000

/-- Modelled from the spec: the parsed transcript record of `bed.rs`
(`TranscriptRecord`/`BedRecord`): coordinates, strand, exon table and
per-exon frame hints.  Exon spans are half-open `[start, end)`. -/
structure BedRecord where
  chrom : String
  name : String
  strand : String
  txStart : Int
  txEnd : Int
  cdsStart : Int
  cdsEnd : Int
  exonStart : List Int
  exonEnd : List Int
  exonFrames : List Int
deriving DecidableEq

/-- Modelled from the spec: the `Codon` value type of `codon.rs` with two
optional genomic sub-intervals; `stop`/`stop2` model the source's `end`/`end2`
fields (`end` is a Lean keyword). -/
structure Codon where
  start : Int
  stop : Int
  start2 : Int
  stop2 : Int
  index : Int
deriving DecidableEq

/-- Modelled from the spec: `Codon::new()`, all coordinates default to 0 and
the exon ordinal defaults to -1 ("undefined"). -/
def Codon.new : Codon := { start := 0, stop := 0, start2 := 0, stop2 := 0, index := -1 }

/-- List indexing with a default, standing in for Rust's vector indexing.
All call sites reached under the data-model invariants use in-range indices. -/
def idx (l : List Int) (i : Nat) : Int := l.getD i 0

/-- Number of exons of a record (`record.exon_count()`). -/
def exonCount (r : BedRecord) : Nat := r.exonStart.length

/-- The strand literal "+". -/
def plusStrand : String := "+"

/-- The strand literal "-". -/
def minusStrand : String := "-"

/-- Embeds `in_exon` (lib.rs:168): a coordinate is within the CLOSED exon
interval `[exon_start, exon_end]`, boundary-inclusive on both sides. -/
def in_exon (r : BedRecord) (pos : Int) (exon : Nat) : Prop :=
  idx r.exonStart exon ≤ pos ∧ pos ≤ idx r.exonEnd exon

instance (r : BedRecord) (pos : Int) (exon : Nat) : Decidable (in_exon r pos exon) :=
  inferInstanceAs (Decidable (idx r.exonStart exon ≤ pos ∧ pos ≤ idx r.exonEnd exon))

/-- Embeds `find_first_codon` (lib.rs:63).  The scan loop either breaks at
`k = 0` (frame non-negative) or returns the empty codon on its very first
iteration, so `exon = 0` throughout the remainder. -/
def find_first_codon (r : BedRecord) : Codon :=
  let codon := Codon.new
  if 0 < r.exonFrames.length ∧ idx r.exonFrames 0 < 0 then codon
  else
    let exon : Nat := 0
    let cds_exon_start := max (idx r.exonStart exon) r.cdsStart
    let cds_exon_end := min (idx r.exonEnd exon) r.cdsEnd
    let frame : Int :=
      if r.strand = plusStrand then idx r.exonFrames exon
      else Int.tmod (idx r.exonFrames exon + (cds_exon_end - cds_exon_start)) 3
    if frame ≠ 0 then codon
    else
      let c1 : Codon :=
        { codon with
          start := r.cdsStart
          stop := r.cdsStart + min (r.cdsEnd - r.cdsStart) 3
          index := (exon : Int) }
      if c1.stop - c1.start < 3 then
        if exon + 1 = exonCount r then c1
        else
          let need := 3 - (c1.stop - c1.start)
          if r.cdsEnd - r.cdsStart < need then c1
          else { c1 with start2 := r.cdsStart, stop2 := r.cdsStart + need }
      else c1

/-- Embeds `find_last_codon` (lib.rs:112).  The reverse scan loop either
breaks at `k = len - 1` or returns the empty codon on its first iteration. -/
def find_last_codon (r : BedRecord) : Codon :=
  let codon := Codon.new
  let len := r.exonFrames.length
  if 0 < len ∧ idx r.exonFrames (len - 1) < 0 then codon
  else
    let exon : Nat := len - 1
    let cds_exon_start := max (idx r.exonStart exon) r.cdsStart
    let cds_exon_end := min (idx r.exonEnd exon) r.cdsEnd
    let frame : Int :=
      if r.strand = minusStrand then idx r.exonFrames exon
      else Int.tmod (idx r.exonFrames exon + (cds_exon_end - cds_exon_start)) 3
    if frame ≠ 0 then codon
    else
      let c1 : Codon :=
        { codon with
          start := max r.cdsStart (r.cdsEnd - 3)
          stop := r.cdsEnd
          index := (exon : Int) }
      if c1.stop - c1.start < 3 then
        if exon + 1 = exonCount r then c1
        else
          let need := 3 - (c1.stop - c1.start)
          if r.cdsEnd - r.cdsStart < need then c1
          else { c1 with start2 := r.cdsStart, stop2 := r.cdsStart + need }
      else c1

/-- Embeds `codon_complete` (lib.rs:161). -/
def codon_complete (c : Codon) : Prop := (c.stop - c.start) + (c.stop2 - c.start2) = 3

instance (c : Codon) : Decidable (codon_complete c) :=
  inferInstanceAs (Decidable ((c.stop - c.start) + (c.stop2 - c.start2) = 3))

/-- Embeds the first-exon-containing-pos scan of `move_pos` (lib.rs:182-187):
the LOWEST exon index whose closed interval contains `pos`, if any. -/
def findExonIdx (r : BedRecord) (pos : Int) : Option Nat :=
  (List.range (exonCount r)).find? (fun i => decide (in_exon r pos i))

/-- Embeds the `while` loop of `move_pos` (lib.rs:196-216).  `exon` is an
`Int` because the Rust `i16` index may step to `-1` or to `exon_count`.
A forward boundary crossing keeps `steps`; a backward crossing decrements it. -/
def movePosLoop (r : BedRecord) (direction : Int) (exon : Int) (pos : Int) (steps : Nat) :
    Option Int :=
  if h : 0 ≤ exon ∧ exon < (exonCount r : Int) ∧ 0 < steps then
    if in_exon r (pos + direction) exon.toNat then
      movePosLoop r direction exon (pos + direction) (steps - 1)
    else if 0 ≤ direction then
      if exon + 1 < (exonCount r : Int) then
        movePosLoop r direction (exon + 1) (idx r.exonStart (exon + 1).toNat) steps
      else
        movePosLoop r direction (exon + 1) pos steps
    else
      if 0 ≤ exon - 1 then
        movePosLoop r direction (exon - 1) (idx r.exonEnd (exon - 1).toNat - 1) (steps - 1)
      else
        movePosLoop r direction (exon - 1) pos steps
  else if steps = 0 then some pos else none
termination_by
  steps * (exonCount r + 2) +
    (if 0 ≤ direction then ((exonCount r : Int) + 1 - exon).toNat else (exon + 1).toNat)
decreasing_by
  all_goals simp_wf
  all_goals
    first
    | omega
    | (split_ifs <;>
        first
        | omega
        | (obtain ⟨k, rfl⟩ : ∃ k, steps = k + 1 := ⟨steps - 1, by omega⟩
           simp only [Nat.add_mul, Nat.one_mul, Nat.add_sub_cancel]
           omega))

/-- Embeds `move_pos` (lib.rs:178): panics (assert failure, position not in
any exon, or distance unsatisfiable) become `none`. -/
def move_pos (r : BedRecord) (pos dist : Int) : Option Int :=
  if r.txStart ≤ pos ∧ pos ≤ r.txEnd then
    match findExonIdx r pos with
    | none => none
    | some i => movePosLoop r (if 0 ≤ dist then 1 else -1) (i : Int) pos dist.natAbs
  else none

/-- Modelled from the spec: the walk loop as the spec's §4.2 words describe
it — "crossing an exon boundary snaps to the first base of the next exon
(for forward motion) or the last base of the previous exon (for backward
motion) WITHOUT consuming a step".  It differs from `movePosLoop` only in
the backward-crossing branch, which here keeps `steps` unchanged. -/
def movePosClaimLoop (r : BedRecord) (direction : Int) (exon : Int) (pos : Int) (steps : Nat) :
    Option Int :=
  if h : 0 ≤ exon ∧ exon < (exonCount r : Int) ∧ 0 < steps then
    if in_exon r (pos + direction) exon.toNat then
      movePosClaimLoop r direction exon (pos + direction) (steps - 1)
    else if 0 ≤ direction then
      if exon + 1 < (exonCount r : Int) then
        movePosClaimLoop r direction (exon + 1) (idx r.exonStart (exon + 1).toNat) steps
      else
        movePosClaimLoop r direction (exon + 1) pos steps
    else
      if 0 ≤ exon - 1 then
        movePosClaimLoop r direction (exon - 1) (idx r.exonEnd (exon - 1).toNat - 1) steps
      else
        movePosClaimLoop r direction (exon - 1) pos steps
  else if steps = 0 then some pos else none
termination_by
  steps * (exonCount r + 2) +
    (if 0 ≤ direction then ((exonCount r : Int) + 1 - exon).toNat else (exon + 1).toNat)
decreasing_by
  all_goals simp_wf
  all_goals
    first
    | omega
    | (split_ifs <;>
        first
        | omega
        | (obtain ⟨k, rfl⟩ : ∃ k, steps = k + 1 := ⟨steps - 1, by omega⟩
           simp only [Nat.add_mul, Nat.one_mul, Nat.add_sub_cancel]
           omega))

/-- Modelled from the spec: `move_pos` as the spec's §4.2 boundary-crossing
words describe it, wrapping `movePosClaimLoop` the same way `move_pos`
wraps `movePosLoop`. -/
def move_pos_claim (r : BedRecord) (pos dist : Int) : Option Int :=
  if r.txStart ≤ pos ∧ pos ≤ r.txEnd then
    match findExonIdx r pos with
    | none => none
    | some i => movePosClaimLoop r (if 0 ≤ dist then 1 else -1) (i : Int) pos dist.natAbs
  else none

/-- The feature-type literal "transcript". -/
def fTranscript : String := "transcript"

/-- The feature-type literal "exon". -/
def fExon : String := "exon"

/-- The feature-type literal "CDS". -/
def fCDS : String := "CDS"

/-- The feature-type literal "five_prime_utr". -/
def fUTR5 : String := "five_prime_utr"

/-- The feature-type literal "three_prime_utr". -/
def fUTR3 : String := "three_prime_utr"

/-- The feature-type literal "start_codon". -/
def fStartCodon : String := "start_codon"

/-- The feature-type literal "stop_codon". -/
def fStopCodon : String := "stop_codon"

/-- The feature-type literal "gene". -/
def fGene : String := "gene"

/-- The literal "." used for empty score and phase columns. -/
def dotStr : String := "."

/-- The `SOURCE` constant of lib.rs:30. -/
def srcName : String := "bed2gff"

/-- Embeds the phase `match` of `build_gtf_line` (lib.rs:257-262):
`-1 | -2 => "."`, `0 => "0"`, `1 => "2"`, everything else `"1"`. -/
def phase_of (frame : Int) : String :=
  if frame = -1 ∨ frame = -2 then dotStr
  else if frame = 0 then "0"
  else if frame = 1 then "2"
  else "1"

/-- One emitted annotation line; the tab-separated columns of the output
format, with the printed (1-based) start in `start1`. -/
structure GtfLine where
  chrom : String
  source : String
  feat : String
  start1 : Int
  stop : Int
  score : String
  strand : String
  phase : String
  attr : String
deriving DecidableEq

/-- Embeds the feature-prefix `match` of `build_gtf_line` (lib.rs:282-290);
an unknown feature type panics, modelled as `none`. -/
def featPfx (feat_type : String) : Option String :=
  if feat_type = fExon then some fExon
  else if feat_type = fCDS then some fCDS
  else if feat_type = fUTR5 then some "UTR5"
  else if feat_type = fUTR3 then some "UTR3"
  else if feat_type = fStartCodon then some fStartCodon
  else if feat_type = fStopCodon then some fStopCodon
  else none

/-- Embeds `build_gtf_line` (lib.rs:246-327): the assert on the transcript
span and the panics on unknown feature types / invalid strands become
`none`; the attribute column is assembled exactly as the `format!` calls
do, including the strand-dependent exon ordinal. -/
def build_gtf_line (r : BedRecord) (gene_name feat_type : String)
    (exon_start exon_end frame exon : Int) : Option GtfLine :=
  if r.txStart < r.txEnd then
    let phase := phase_of frame
    let base : GtfLine :=
      { chrom := r.chrom, source := srcName, feat := feat_type, start1 := exon_start + 1,
        stop := exon_end, score := dotStr, strand := r.strand, phase := phase, attr := "" }
    if feat_type = fTranscript then
      some { base with
        attr := "ID=" ++ r.name ++ ";Parent=" ++ gene_name ++ ";gene_id=" ++ gene_name ++
          ";transcript_id=" ++ r.name }
    else
      match featPfx feat_type with
      | none => none
      | some pfx =>
        if 0 ≤ exon then
          if r.strand = minusStrand then
            let eid : Int := (exonCount r : Int) - exon
            some { base with
              attr := "ID=" ++ pfx ++ ":" ++ r.name ++ "." ++ toString eid ++ ";Parent=" ++
                r.name ++ ";gene_id=" ++ gene_name ++ ";transcript_id=" ++ r.name ++
                ",exon_number=" ++ toString eid }
          else if r.strand = plusStrand then
            let eid : Int := exon + 1
            some { base with
              attr := "ID=" ++ pfx ++ ":" ++ r.name ++ "." ++ toString eid ++ ";Parent=" ++
                r.name ++ ";gene_id=" ++ gene_name ++ ";transcript_id=" ++ r.name ++
                ",exon_number=" ++ toString eid }
          else none
        else
          some { base with
            attr := "ID=" ++ pfx ++ ":" ++ r.name ++ ";Parent=" ++ r.name ++ ";gene_id=" ++
              gene_name ++ ";transcript_id=" ++ r.name }
  else none

/-- Embeds `build_gene_line` (lib.rs:229): the `gene` summary line; the
assert on an empty gene name becomes `none`. -/
def build_gene_line (gene_name : String) (r : BedRecord) : Option GtfLine :=
  if 0 < gene_name.length then
    some
      { chrom := r.chrom, source := srcName, feat := fGene, start1 := r.txStart + 1,
        stop := r.txEnd, score := dotStr, strand := r.strand, phase := dotStr,
        attr := "ID=" ++ gene_name ++ ";gene_id=" ++ gene_name }
  else none

/-- Embeds `write_features` (lib.rs:332-362): the up-to-three UTR/CDS
segments emitted for exon `i`, in source order. -/
def write_features (i : Nat) (r : BedRecord) (gene_name : String)
    (first_utr_end cds_start cds_end last_utr_start frame : Int) : Option (List GtfLine) := do
  let exon_start := idx r.exonStart i
  let exon_end := idx r.exonEnd i
  let utrA ←
    if exon_start < first_utr_end then
      let e := min exon_end first_utr_end
      let utr_type := if r.strand = plusStrand then fUTR5 else fUTR3
      (build_gtf_line r gene_name utr_type exon_start e frame (-1)).map (fun l => [l])
    else some []
  let cds ←
    if r.cdsStart < exon_end ∧ exon_start < r.cdsEnd then
      let s := max exon_start cds_start
      let e := min exon_end cds_end
      (build_gtf_line r gene_name fCDS s e frame (i : Int)).map (fun l => [l])
    else some []
  let utrB ←
    if exon_end > last_utr_start then
      let s := max exon_start last_utr_start
      let utr_type := if r.strand = plusStrand then fUTR3 else fUTR5
      (build_gtf_line r gene_name utr_type s exon_end frame (-1)).map (fun l => [l])
    else some []
  return utrA ++ (cds ++ utrB)

/-- Embeds `write_codon` (lib.rs:367-392).  Note the second line of a split
codon re-passes `codon.start`/`codon.end` as the coordinates, `codon.start2`
in the frame slot and `codon.end - codon.start` in the exon-index slot,
exactly as the source does. -/
def write_codon (r : BedRecord) (gene_name gene_type : String) (codon : Codon) :
    Option (List GtfLine) := do
  let l1 ← build_gtf_line r gene_name gene_type codon.start codon.stop 0 codon.index
  if codon.start2 < codon.stop2 then
    let l2 ← build_gtf_line r gene_name gene_type codon.start codon.stop codon.start2
      (codon.stop - codon.start)
    return [l1, l2]
  else
    return [l1]

/-- The exon loop of `to_gtf` (lib.rs:418-423), over the listed exon
indices: one `exon` line per exon plus, when the adjusted coding span is
non-empty, the exon's UTR/CDS features. -/
def exonLinesGo (r : BedRecord) (gene_name : String)
    (first_utr_end cds_start cds_end last_utr_start : Int) : List Nat → Option (List GtfLine)
  | [] => some []
  | i :: rest => do
    let ex ← build_gtf_line r gene_name fExon (idx r.exonStart i) (idx r.exonEnd i) (-1) (i : Int)
    let feats ←
      if cds_start < cds_end then
        write_features i r gene_name first_utr_end cds_start cds_end last_utr_start
          (idx r.exonFrames i)
      else some []
    let rl ← exonLinesGo r gene_name first_utr_end cds_start cds_end last_utr_start rest
    return ex :: (feats ++ rl)

/-- Embeds `to_gtf` (lib.rs:397-444): the per-record orchestrator.  The
isoform `HashMap` is passed as a lookup function; the `unwrap` on a missing
gene, the `move_pos` panics and the invalid-strand panic become `none`. -/
def to_gtf (r : BedRecord) (isoforms : String → Option String) (gene_line : Bool) :
    Option (List GtfLine) := do
  let gene_name ← isoforms r.name
  let first_codon := find_first_codon r
  let last_codon := find_last_codon r
  let first_utr_end := r.cdsStart
  let last_utr_start := r.cdsEnd
  let cds_end ←
    if r.strand = plusStrand ∧ codon_complete last_codon then move_pos r last_codon.stop (-3)
    else some r.cdsEnd
  let cds_start ←
    if r.strand = minusStrand ∧ codon_complete first_codon then move_pos r first_codon.start 3
    else some r.cdsStart
  let gl ← if gene_line then (build_gene_line gene_name r).map (fun l => [l]) else some []
  let tr ← build_gtf_line r gene_name fTranscript r.txStart r.txEnd (-1) (-1)
  let exLines ← exonLinesGo r gene_name first_utr_end cds_start cds_end last_utr_start
    (List.range (exonCount r))
  let codons ←
    if r.strand = plusStrand then do
      let a ← if codon_complete first_codon then write_codon r gene_name fStartCodon first_codon
              else some []
      let b ← if codon_complete last_codon then write_codon r gene_name fStopCodon last_codon
              else some []
      pure (a ++ b)
    else if r.strand = minusStrand then do
      let a ← if codon_complete last_codon then write_codon r gene_name fStartCodon last_codon
              else some []
      let b ← if codon_complete first_codon then write_codon r gene_name fStopCodon first_codon
              else some []
      pure (a ++ b)
    else none
  return gl ++ (tr :: (exLines ++ codons))

/-- The tab character used by the input formats. -/
def tabChar : Char := '\t'

/-- Splits a character list at tab characters, mirroring Rust's
`line.split("\t")`: always at least one (possibly empty) field. -/
def splitFields : List Char → List (List Char)
  | [] => [[]]
  | c :: cs =>
    let r := splitFields cs
    if c = tabChar then [] :: r
    else
      match r with
      | f :: rest => (c :: f) :: rest
      | [] => [[c]]

/-- String-level tab splitting (`line.split("\t").collect()`). -/
def splitTab (s : String) : List String := (splitFields s.data).map (fun cs => String.mk cs)

/-- The empty string (default for out-of-range field access). -/
def emptyStr : String := ""

/-- Field access with default, standing in for Rust's `content[i]`. -/
def getS (l : List String) (i : Nat) : String := l.getD i emptyStr

/-- Functional model of `HashMap::insert`: later insertions overwrite. -/
def hmInsert (m : String → Option String) (k v : String) : String → Option String :=
  fun x => if x = k then some v else m x

/-- Functional model of `HashMap::new`. -/
def hmEmpty : String → Option String := fun _ => none

/-- The loop body of `get_isoforms` (lib.rs:47-54): the line is split at
tabs, `content[0]` is the gene and `content[1]` the isoform, and
`isoform ↦ gene` is inserted; a line without a second field panics
(`content[1]` out of range), modelled as `none`. -/
def isoStep (m : String → Option String) (line : String) : Option (String → Option String) :=
  let content := splitTab line
  if 2 ≤ content.length then
    some (hmInsert m (getS content 1) (getS content 0))
  else none

/-- Embeds `get_isoforms` (lib.rs:42-57) over the file's lines. -/
def get_isoforms (lines : List String) : Option (String → Option String) :=
  lines.foldlM isoStep hmEmpty

/-- The gene of the LAST mapping-file line naming an isoform, if any. -/
def lastGeneFor (lines : List String) (iso : String) : Option String :=
  (lines.reverse.find? (fun l => decide (getS (splitTab l) 1 = iso))).map
    (fun l => getS (splitTab l) 0)

/-- Embeds `bedsort` (lib.rs:449-470): every line is pre-parsed with
`BedRecord::layer` and a failure propagates out (the `?` operator), so one
bad line makes the whole sort fail; the natural-order comparator of the
external `natord` crate is passed in as `le`.  The pre-parse `layer` itself
lives in the missing `bed.rs` and is passed in as a function. -/
def bedsort (layer : String → Option (String × Int × String))
    (le : (String × Int × String) → (String × Int × String) → Bool)
    (lines : List String) : Option (List (String × Int × String)) :=
  (lines.mapM layer).map (fun recs => recs.mergeSort le)

/-- Observable outcome of one iteration of the `bed2gff` main loop:
either the logged parse failure of `BedRecord::new`, or the lines of a
converted record. -/
inductive RunEvent where
  | parseFail : RunEvent
  | converted : List GtfLine → RunEvent
deriving DecidableEq

/-- Embeds the main loop of `bed2gff` (lib.rs:493-521): a record failing
`BedRecord::new` is logged and skipped and the loop continues; a missing
isoform mapping calls `process::exit(1)` (whole run aborts, `none`); the
gene-dedup set decides the gene-line flag.  `newRec` stands for the missing
`BedRecord::new` of `bed.rs`. -/
def processRecords (newRec : String → Option BedRecord) (iso : String → Option String) :
    List String → List String → Option (List RunEvent)
  | [], _ => some []
  | row :: rest, seen =>
    match newRec row with
    | none => (processRecords newRec iso rest seen).map (fun evs => RunEvent.parseFail :: evs)
    | some rec =>
      match iso rec.name with
      | none => none
      | some g =>
        if seen.contains g then
          match to_gtf rec iso false with
          | none => none
          | some ls => (processRecords newRec iso rest seen).map
              (fun evs => RunEvent.converted ls :: evs)
        else
          match to_gtf rec iso true with
          | none => none
          | some ls => (processRecords newRec iso rest (g :: seen)).map
              (fun evs => RunEvent.converted ls :: evs)

/-- Embeds the record-level control flow of `bed2gff` (lib.rs:479-529):
`bedsort(input).unwrap()` panics on any pre-parse failure (whole run
`none`), then the main loop runs over the sorted lines with an initially
empty gene-dedup set. -/
def bed2gff_run (layer : String → Option (String × Int × String))
    (le : (String × Int × String) → (String × Int × String) → Bool)
    (newRec : String → Option BedRecord) (iso : String → Option String)
    (lines : List String) : Option (List RunEvent) :=
  match bedsort layer le lines with
  | none => none
  | some sorted => processRecords newRec iso (sorted.map (fun t => t.2.2)) []

/-- Projection of an output line to its claim-relevant columns:
feature type, printed start, end, phase. -/
def lineView (l : GtfLine) : String × Int × Int × String := (l.feat, l.start1, l.stop, l.phase)

/-- The data-model invariants of the spec's §3 for the exon table: equal
table lengths, non-empty exons, sorted and non-overlapping spans, all
within the transcript span. -/
def ExonInv (r : BedRecord) : Prop :=
  r.exonStart.length = r.exonEnd.length ∧
  (∀ i, i < exonCount r → idx r.exonStart i < idx r.exonEnd i) ∧
  (∀ i, i + 1 < exonCount r → idx r.exonEnd i ≤ idx r.exonStart (i + 1)) ∧
  (∀ i, i < exonCount r → r.txStart ≤ idx r.exonStart i ∧ idx r.exonEnd i ≤ r.txEnd)

/-- Transcript-coordinate prefix sums: total exonic length of the first
`i` exons. -/
def cumLen (r : BedRecord) : Nat → Int
  | 0 => 0
  | i + 1 => cumLen r i + (idx r.exonEnd i - idx r.exonStart i)

/-- A single-exon, fully coding, `+`-strand record (`exon_frames = [0]`). -/
def mkR (c n : String) (a b : Int) : BedRecord :=
  { chrom := c, name := n, strand := plusStrand, txStart := a, txEnd := b,
    cdsStart := a, cdsEnd := b, exonStart := [a], exonEnd := [b], exonFrames := [0] }

/-- A two-exon, non-coding record used as a `move_pos` test vehicle:
exons `[0,5)` and `[10,15)`. -/
def rM : BedRecord :=
  { chrom := "c", name := "t", strand := plusStrand, txStart := 0, txEnd := 15,
    cdsStart := 0, cdsEnd := 0, exonStart := [0, 10], exonEnd := [5, 15],
    exonFrames := [-1, -1] }

/-- A two-exon record whose total coding span has exactly 2 bases, all
inside the first exon: exons `[0,5)` and `[10,15)`, CDS `[0,2)`. -/
def rC5 : BedRecord :=
  { chrom := "c", name := "t", strand := plusStrand, txStart := 0, txEnd := 15,
    cdsStart := 0, cdsEnd := 2, exonStart := [0, 10], exonEnd := [5, 15],
    exonFrames := [0, -1] }

/-- Concrete single-exon fully coding record of length 6 (`[0,6)`). -/
def rC2 : BedRecord := mkR "c" "t" 0 6

/-- Isoform lookup mapping the test transcript "t" to gene "g". -/
def isoDemo : String → Option String := fun s => if s = "t" then some "g" else none

/-- A two-exon record hosting a split codon for the `write_codon` path. -/
def rC1 : BedRecord :=
  { chrom := "c", name := "t", strand := plusStrand, txStart := 0, txEnd := 30,
    cdsStart := 10, cdsEnd := 21, exonStart := [0, 20], exonEnd := [12, 30],
    exonFrames := [0, 2] }

/-- A split codon value: primary part `[10,12)` in exon 0, secondary part
`[20,21)` in exon 1. -/
def cC1 : Codon := { start := 10, stop := 12, start2 := 20, stop2 := 21, index := 0 }

theorem phase_claim_shape (frame : Int) :
    phase_of frame =
      (if frame = 0 then "0" else if frame = 1 then "2"
       else if frame = -1 ∨ frame = -2 then dotStr else "1") := by
  unfold phase_of
  split_ifs <;> first | rfl | omega

/-- C7 counterexample: at frame `-3` the line builder emits phase `"1"`,
not `"."` as the claim requires for every negative frame. -/
theorem c7_counterexample :
    (build_gtf_line rM "g" fExon 0 5 (-3) 0).map GtfLine.phase = some "1" ∧
      ("1" : String) ≠ "." := by
  constructor
  · rfl
  · decide

/-- C7 amended: the emitted phase is "0" for frame 0, "2" for frame 1,
"." exactly for frames -1 and -2, and "1" for every other frame value,
including every frame below -2. -/
theorem c7_amended (r : BedRecord) (g : String) (s e frame : Int)
    (htx : r.txStart < r.txEnd) (hstrand : r.strand = plusStrand) :
    (build_gtf_line r g fExon s e frame 0).map GtfLine.phase =
      some (if frame = 0 then "0" else if frame = 1 then "2"
            else if frame = -1 ∨ frame = -2 then dotStr else "1") := by
  simp [build_gtf_line, featPfx, fExon, fTranscript, plusStrand, minusStrand, htx, hstrand,
    phase_claim_shape]

theorem c7_amended_witness :
    rM.txStart < rM.txEnd ∧
      (build_gtf_line rM "g" fExon 0 5 5 0).map GtfLine.phase = some "1" := by
  refine ⟨by decide, ?_⟩
  have h := c7_amended rM "g" 0 5 5 (by decide) rfl
  simpa using h

/-- C9: `move_pos` with distance zero is the identity on any position
inside the transcript span that lies in some exon's closed interval. -/
theorem c9_move_pos_zero (r : BedRecord) (pos : Int) (h1 : r.txStart ≤ pos)
    (h2 : pos ≤ r.txEnd) (h3 : ∃ i, i < exonCount r ∧ in_exon r pos i) :
    move_pos r pos 0 = some pos := by
  obtain ⟨i, hi, hin⟩ := h3
  have hfind : ∃ j, findExonIdx r pos = some j := by
    cases hf : findExonIdx r pos with
    | some j => exact ⟨j, rfl⟩
    | none =>
      exfalso
      unfold findExonIdx at hf
      have hnone := List.find?_eq_none.mp hf i (List.mem_range.mpr hi)
      simp only [decide_eq_true_eq] at hnone
      exact hnone hin
  obtain ⟨j, hj⟩ := hfind
  unfold move_pos
  rw [if_pos ⟨h1, h2⟩, hj]
  show movePosLoop r (if (0:Int) ≤ 0 then 1 else -1) (j : Int) pos (Int.natAbs 0) = some pos
  rw [movePosLoop.eq_def]
  simp

theorem c9_witness : move_pos rM 3 0 = some 3 :=
  c9_move_pos_zero rM 3 (by decide) (by decide) ⟨0, by decide, by decide⟩

/-- C1: evaluation of `write_codon` on a split codon.  The second emitted
line repeats the primary interval `[11,12]`, carries phase "1" (the raw
`start2` coordinate fed into the frame slot) and exon ordinal 3 (the value
`end - start` fed into the exon-index slot), instead of spanning
`[start2+1, end2] = [21,21]` with the first line's ordinal 1. -/
theorem c1_code_eval :
    write_codon rC1 "g" fStartCodon cC1 =
      some
        [{ chrom := "c", source := "bed2gff", feat := "start_codon", start1 := 11, stop := 12,
           score := ".", strand := "+", phase := "0",
           attr := "ID=start_codon:t.1;Parent=t;gene_id=g;transcript_id=t,exon_number=1" },
         { chrom := "c", source := "bed2gff", feat := "start_codon", start1 := 11, stop := 12,
           score := ".", strand := "+", phase := "1",
           attr := "ID=start_codon:t.3;Parent=t;gene_id=g;transcript_id=t,exon_number=3" }] := by
  decide

/-- C5: evaluation of the codon locator on `rC5`, whose 2-base coding span
lies entirely inside exon 0: the secondary pair is nevertheless non-empty,
and every base of both codon parts lies inside exon 0, so no exon boundary
is spanned by the codon. -/
theorem c5_code_eval :
    (find_first_codon rC5).start2 < (find_first_codon rC5).stop2 ∧
    idx rC5.exonStart 0 ≤ (find_first_codon rC5).start ∧
    (find_first_codon rC5).stop ≤ idx rC5.exonEnd 0 ∧
    idx rC5.exonStart 0 ≤ (find_first_codon rC5).start2 ∧
    (find_first_codon rC5).stop2 ≤ idx rC5.exonEnd 0 := by
  decide

/-- C6 counterexample: on `rC5` the continuation exon (exon 1) has no
coding bases at all (its coding overlap is empty, hence smaller than
`need`), yet `find_first_codon` does NOT return the incomplete codon
unchanged: it sets the secondary pair, and to `start2 = cds_start = 0`,
which lies in exon 0, not in the continuation exon. -/
theorem c6_counterexample :
    ((find_first_codon rC5).stop - (find_first_codon rC5).start < 3) ∧
    (min (idx rC5.exonEnd 1) rC5.cdsEnd - max (idx rC5.exonStart 1) rC5.cdsStart <
      3 - ((find_first_codon rC5).stop - (find_first_codon rC5).start)) ∧
    find_first_codon rC5 ≠ { start := 0, stop := 2, start2 := 0, stop2 := 0, index := 0 } := by
  decide

/-- C6 amended: in the short-first-part branch with a continuation exon,
the guard compares `need` against the TOTAL coding span
`cds_end - cds_start` (not the continuation exon's available coding span),
and on success `start2 = cds_start`, `end2 = cds_start + need` — positions
at the start of the overall coding span, not positions inside the
continuation exon. -/
theorem c6_amended (r : BedRecord)
    (hlen : 0 < r.exonFrames.length)
    (hf : 0 ≤ idx r.exonFrames 0)
    (hframe : (if r.strand = plusStrand then idx r.exonFrames 0
               else Int.tmod (idx r.exonFrames 0 +
                 (min (idx r.exonEnd 0) r.cdsEnd - max (idx r.exonStart 0) r.cdsStart)) 3) = 0)
    (hshort : r.cdsEnd - r.cdsStart < 3)
    (hcont : 0 + 1 ≠ exonCount r) :
    find_first_codon r =
      (if r.cdsEnd - r.cdsStart < 3 - (r.cdsEnd - r.cdsStart) then
        { start := r.cdsStart, stop := r.cdsStart + min (r.cdsEnd - r.cdsStart) 3,
          start2 := 0, stop2 := 0, index := 0 }
      else
        { start := r.cdsStart, stop := r.cdsStart + min (r.cdsEnd - r.cdsStart) 3,
          start2 := r.cdsStart, stop2 := r.cdsStart + (3 - (r.cdsEnd - r.cdsStart)),
          index := 0 }) := by
  simp only [find_first_codon, Codon.new]
  rw [if_neg (show ¬ (0 < r.exonFrames.length ∧ idx r.exonFrames 0 < 0) by omega)]
  rw [if_neg (show ¬ ¬ (if r.strand = plusStrand then idx r.exonFrames 0
      else Int.tmod (idx r.exonFrames 0 +
        (min (idx r.exonEnd 0) r.cdsEnd - max (idx r.exonStart 0) r.cdsStart)) 3) = 0
    from not_not_intro hframe)]
  rw [if_pos (show r.cdsStart + min (r.cdsEnd - r.cdsStart) 3 - r.cdsStart < 3 by omega)]
  rw [if_neg hcont]
  split_ifs <;> first | rfl | (exfalso; omega) | (congr 1 <;> omega)

theorem c6_amended_witness :
    find_first_codon rC5 = { start := 0, stop := 2, start2 := 0, stop2 := 1, index := 0 } := by
  have h := c6_amended rC5 (by decide) (by decide) (by decide) (by decide) (by decide)
  simpa using h

theorem isoforms_foldl_char :
    ∀ (lines : List String) (m0 m : String → Option String),
      List.foldlM isoStep m0 lines = some m →
      ∀ iso, m iso = (lastGeneFor lines iso).or (m0 iso) := by
  intro lines
  induction lines with
  | nil =>
    intro m0 m hm iso
    simp only [List.foldlM_nil] at hm
    cases hm
    simp [lastGeneFor]
  | cons l ls ih =>
    intro m0 m hm iso
    rw [List.foldlM_cons] at hm
    cases hstep : isoStep m0 l with
    | none => rw [hstep] at hm; simp at hm
    | some m1 =>
      rw [hstep] at hm
      simp only [Option.bind_eq_bind, Option.some_bind] at hm
      have hiso := ih m1 m hm iso
      unfold isoStep at hstep
      by_cases hlen : 2 ≤ (splitTab l).length
      · rw [if_pos hlen] at hstep
        have hm1 : m1 = hmInsert m0 (getS (splitTab l) 1) (getS (splitTab l) 0) :=
          (Option.some.inj hstep).symm
        have hlast : lastGeneFor (l :: ls) iso =
            (lastGeneFor ls iso).or
              (if getS (splitTab l) 1 = iso then some (getS (splitTab l) 0) else none) := by
          unfold lastGeneFor
          rw [List.reverse_cons, List.find?_append]
          cases hfind : ls.reverse.find? (fun x => decide (getS (splitTab x) 1 = iso)) with
          | some w => simp [hfind, Option.or]
          | none =>
            simp only [hfind, Option.none_or, List.find?]
            by_cases hi : getS (splitTab l) 1 = iso
            · simp [hi]
            · simp [hi]
        rw [hlast]
        cases hcase : lastGeneFor ls iso with
        | some g =>
          rw [hcase] at hiso
          simpa [Option.or] using hiso
        | none =>
          rw [hcase] at hiso
          simp only [Option.none_or] at hiso ⊢
          rw [hiso, hm1]
          by_cases hi : getS (splitTab l) 1 = iso
          · simp [hi, hmInsert, Option.or]
          · simp only [if_neg hi, Option.none_or, hmInsert]
            rw [if_neg (fun he => hi he.symm)]
      · rw [if_neg hlen] at hstep
        exact absurd hstep (by simp)

/-- C10: in the isoform-to-gene mapping, the gene of the LAST mapping-file
line naming an isoform wins; earlier lines for the same isoform are
silently overwritten. -/
theorem c10_last_wins (lines : List String) (m : String → Option String)
    (hm : get_isoforms lines = some m) (iso : String) :
    m iso = lastGeneFor lines iso := by
  unfold get_isoforms at hm
  have h := isoforms_foldl_char lines hmEmpty m hm iso
  simpa [hmEmpty, Option.or_none] using h

/-- Two mapping-file lines giving the same isoform different genes. -/
def demoLines : List String := ["g1\ti", "g2\ti"]

/-- The lookup that `get_isoforms` builds from `demoLines`. -/
def mDemo : String → Option String := hmInsert (hmInsert hmEmpty "i" "g1") "i" "g2"

theorem c10_witness :
    get_isoforms demoLines = some mDemo ∧ mDemo "i" = lastGeneFor demoLines "i" := by
  constructor
  · rfl
  · exact c10_last_wins demoLines mDemo rfl "i"

theorem c4_counterexample :
    move_pos_claim rM 10 (-1) = some 3 ∧ move_pos rM 10 (-1) = some 4 ∧ (3 : Int) ≠ 4 := by
  refine ⟨?_, ?_, by decide⟩
  · have h1 : findExonIdx rM 10 = some 1 := rfl
    unfold move_pos_claim
    rw [if_pos (by decide : rM.txStart ≤ 10 ∧ (10:Int) ≤ rM.txEnd), h1]
    show movePosClaimLoop rM (if (0:Int) ≤ -1 then 1 else -1) 1 10 (Int.natAbs (-1)) = some 3
    norm_num
    rw [movePosClaimLoop.eq_def]
    norm_num [in_exon, idx, exonCount, rM]
    rw [movePosClaimLoop.eq_def]
    norm_num [in_exon, idx, exonCount, rM]
    rw [movePosClaimLoop.eq_def]
    norm_num [in_exon, idx, exonCount, rM]
  · have h1 : findExonIdx rM 10 = some 1 := rfl
    unfold move_pos
    rw [if_pos (by decide : rM.txStart ≤ 10 ∧ (10:Int) ≤ rM.txEnd), h1]
    show movePosLoop rM (if (0:Int) ≤ -1 then 1 else -1) 1 10 (Int.natAbs (-1)) = some 4
    norm_num
    rw [movePosLoop.eq_def]
    norm_num [in_exon, idx, exonCount, rM]
    rw [movePosLoop.eq_def]
    norm_num [in_exon, idx, exonCount, rM]

theorem c4_amended (r : BedRecord) (i : Nat) (pos : Int) (k : Nat) (hi : i < exonCount r) :
    (in_exon r (pos + 1) i →
      movePosLoop r 1 (i : Int) pos (k + 1) = movePosLoop r 1 (i : Int) (pos + 1) k) ∧
    (¬ in_exon r (pos + 1) i → (i : Int) + 1 < (exonCount r : Int) →
      movePosLoop r 1 (i : Int) pos (k + 1) =
        movePosLoop r 1 ((i : Int) + 1) (idx r.exonStart (i + 1)) (k + 1)) ∧
    (in_exon r (pos - 1) i →
      movePosLoop r (-1) (i : Int) pos (k + 1) = movePosLoop r (-1) (i : Int) (pos - 1) k) ∧
    (¬ in_exon r (pos - 1) i → 1 ≤ i →
      movePosLoop r (-1) (i : Int) pos (k + 1) =
        movePosLoop r (-1) ((i : Int) - 1) (idx r.exonEnd (i - 1) - 1) k) := by
  have hguard : (0:Int) ≤ (i : Int) ∧ (i : Int) < (exonCount r : Int) ∧ 0 < k + 1 := by
    refine ⟨by positivity, by exact_mod_cast hi, Nat.succ_pos k⟩
  have htn : ((i : Int)).toNat = i := by omega
  refine ⟨?_, ?_, ?_, ?_⟩
  · intro h
    conv_lhs => rw [movePosLoop.eq_def]
    rw [dif_pos hguard, if_pos (by rwa [htn] : in_exon r (pos + 1) ((i : Int)).toNat)]
    simp only [Nat.add_sub_cancel]
  · intro h h2
    conv_lhs => rw [movePosLoop.eq_def]
    rw [dif_pos hguard, if_neg (by rwa [htn] : ¬ in_exon r (pos + 1) ((i : Int)).toNat)]
    rw [if_pos (by norm_num : (0:Int) ≤ 1), if_pos h2]
    have : ((i : Int) + 1).toNat = i + 1 := by omega
    rw [this]
  · intro h
    conv_lhs => rw [movePosLoop.eq_def]
    rw [dif_pos hguard]
    rw [if_pos (show in_exon r (pos + -1) ((i : Int)).toNat by rw [htn]; simpa using h)]
    simp only [Nat.add_sub_cancel]
    rw [show pos + -1 = pos - 1 by ring]
  · intro h h1
    conv_lhs => rw [movePosLoop.eq_def]
    rw [dif_pos hguard]
    rw [if_neg (show ¬ in_exon r (pos + -1) ((i : Int)).toNat by rw [htn]; simpa using h)]
    rw [if_neg (by norm_num : ¬ (0:Int) ≤ -1)]
    rw [if_pos (by omega : (0:Int) ≤ (i : Int) - 1)]
    have : ((i : Int) - 1).toNat = i - 1 := by omega
    rw [this]
    simp only [Nat.add_sub_cancel]

theorem c4_amended_witness :
    movePosLoop rM (-1) 1 10 1 = movePosLoop rM (-1) 0 (idx rM.exonEnd 0 - 1) 0 :=
  (c4_amended rM 1 10 0 (by decide)).2.2.2 (by decide) (by decide)

theorem mapM_none_of_mem {α β : Type} (f : α → Option β) :
    ∀ (l : List α) (a : α), a ∈ l → f a = none → l.mapM f = none := by
  intro l
  induction l with
  | nil => intro a ha; cases ha
  | cons x xs ih =>
    intro a ha hfa
    rw [List.mapM_cons]
    rcases List.mem_cons.mp ha with h | h
    · subst h; rw [hfa]; rfl
    · cases hfx : f x with
      | none => rfl
      | some b =>
        have hih := ih a h hfa
        rw [hih]
        rfl

theorem c8_amended :
    (∀ (newRec : String → Option BedRecord) (iso : String → Option String)
       (row : String) (rest : List String) (seen : List String),
       newRec row = none →
       processRecords newRec iso (row :: rest) seen =
         (processRecords newRec iso rest seen).map (fun evs => RunEvent.parseFail :: evs)) ∧
    (∀ (layer : String → Option (String × Int × String)) le
       (newRec : String → Option BedRecord) (iso : String → Option String)
       (lines : List String) (l : String),
       l ∈ lines → layer l = none →
       bed2gff_run layer le newRec iso lines = none) := by
  constructor
  · intro newRec iso row rest seen hnew
    simp [processRecords, hnew]
  · intro layer le newRec iso lines l hl hlay
    unfold bed2gff_run bedsort
    rw [mapM_none_of_mem layer lines l hl hlay]
    rfl

def layerBad : String → Option (String × Int × String) :=
  fun l => if l = "bad" then none else some ("c", 0, l)

def leTrue : (String × Int × String) → (String × Int × String) → Bool := fun _ _ => true

def newNone : String → Option BedRecord := fun _ => none

theorem c8_counterexample : bed2gff_run layerBad leTrue newNone isoDemo ["bad"] = none := by rfl

theorem c8_amended_witness :
    processRecords newNone isoDemo ["x"] [] = some [RunEvent.parseFail] ∧
    bed2gff_run layerBad leTrue newNone isoDemo ["ok", "bad"] = none := by
  constructor
  · rw [c8_amended.1 newNone isoDemo "x" [] [] rfl]; rfl
  · exact c8_amended.2 layerBad leTrue newNone isoDemo ["ok", "bad"] "bad" (by simp) rfl

theorem mkR_name (c n : String) (a b : Int) : (mkR c n a b).name = n := rfl

theorem mkR_strand (c n : String) (a b : Int) : (mkR c n a b).strand = plusStrand := rfl

theorem mkR_txStart (c n : String) (a b : Int) : (mkR c n a b).txStart = a := rfl

theorem mkR_txEnd (c n : String) (a b : Int) : (mkR c n a b).txEnd = b := rfl

theorem mkR_cdsStart (c n : String) (a b : Int) : (mkR c n a b).cdsStart = a := rfl

theorem mkR_cdsEnd (c n : String) (a b : Int) : (mkR c n a b).cdsEnd = b := rfl

theorem mkR_exonCount (c n : String) (a b : Int) : exonCount (mkR c n a b) = 1 := rfl

theorem mkR_S0 (c n : String) (a b : Int) : idx (mkR c n a b).exonStart 0 = a := rfl

theorem mkR_E0 (c n : String) (a b : Int) : idx (mkR c n a b).exonEnd 0 = b := rfl

theorem mkR_F0 (c n : String) (a b : Int) : idx (mkR c n a b).exonFrames 0 = 0 := rfl

theorem movePosLoop_back_within (r : BedRecord) (i : Nat) (hi : i < exonCount r) :
    ∀ (k : Nat) (pos : Int), idx r.exonStart i + k ≤ pos → pos ≤ idx r.exonEnd i →
      movePosLoop r (-1) (i : Int) pos k = some (pos - k) := by
  intro k
  induction k with
  | zero =>
    intro pos h1 h2
    rw [movePosLoop.eq_def]
    simp
  | succ k ih =>
    intro pos h1 h2
    rw [movePosLoop.eq_def]
    rw [dif_pos ⟨by positivity, by exact_mod_cast hi, Nat.succ_pos k⟩]
    rw [if_pos (show in_exon r (pos + -1) ((i : Int)).toNat by
      have ht : ((i : Int)).toNat = i := by omega
      rw [ht]
      constructor <;> omega)]
    simp only [Nat.succ_sub_one]
    rw [show pos + -1 = pos - 1 by ring]
    rw [ih (pos - 1) (by omega) (by omega)]
    congr 1
    push_cast
    ring

theorem move_pos_mkR_back3 (c n : String) (a b : Int) (h : a + 3 ≤ b) :
    move_pos (mkR c n a b) b (-3) = some (b - 3) := by
  unfold move_pos
  rw [if_pos (show (mkR c n a b).txStart ≤ b ∧ b ≤ (mkR c n a b).txEnd by
    rw [mkR_txStart, mkR_txEnd]; omega)]
  have hfind : findExonIdx (mkR c n a b) b = some 0 := by
    unfold findExonIdx
    rw [mkR_exonCount]
    show List.find? _ [0] = some 0
    rw [List.find?_cons_of_pos _ (by
      simp only [decide_eq_true_eq]
      rw [in_exon, mkR_S0, mkR_E0]
      omega)]
  rw [hfind]
  show movePosLoop (mkR c n a b) (if (0:Int) ≤ -3 then 1 else -1) 0 b (Int.natAbs (-3)) =
    some (b - 3)
  norm_num
  have hres := movePosLoop_back_within (mkR c n a b) 0 (by rw [mkR_exonCount]; omega) 3 b
    (by rw [mkR_S0]; omega) (by rw [mkR_E0])
  simpa using hres

theorem find_first_mkR (c n : String) (a b : Int) (h : a + 3 ≤ b) :
    find_first_codon (mkR c n a b) =
      { start := a, stop := a + 3, start2 := 0, stop2 := 0, index := 0 } := by
  have hm : min (b - a) 3 = (3:Int) := by omega
  simp [find_first_codon, mkR_F0, mkR_S0, mkR_E0, mkR_cdsStart, mkR_cdsEnd, mkR_strand,
    Codon.new, hm]

theorem find_last_mkR (c n : String) (a b : Int) (h : a + 3 ≤ b) (h3 : (b - a) % 3 = 0) :
    find_last_codon (mkR c n a b) =
      { start := b - 3, stop := b, start2 := 0, stop2 := 0, index := 0 } := by
  have hlen : (mkR c n a b).exonFrames.length = 1 := rfl
  have htm : Int.tmod (b - a) 3 = 0 := by
    rw [Int.tmod_eq_emod (by omega) (by norm_num)]
    omega
  have hmax : max a (b - 3) = b - 3 := by omega
  simp [find_last_codon, hlen, mkR_F0, mkR_S0, mkR_E0, mkR_cdsStart, mkR_cdsEnd, mkR_strand,
    Codon.new, htm, hmax, plusStrand, minusStrand]

/-- C2 amended: for a single-exon, fully coding `+`-strand transcript whose
length is a multiple of 3 and at least 6, `to_gtf` (without the gene line)
emits exactly: a transcript line `[tx_start+1, tx_end]`, an exon line over
the identical span, a CDS line over `[tx_start+1, tx_end-3]` with phase "0"
(the stop codon is EXCLUDED from the CDS), a start_codon at
`[tx_start+1, tx_start+3]`, a stop_codon at `[tx_end-2, tx_end]`, and no
UTR lines. -/
theorem c2_amended (c n g : String) (a b : Int) (hL : a + 6 ≤ b) (h3 : (b - a) % 3 = 0) :
    (to_gtf (mkR c n a b) (fun s => if s = n then some g else none) false).map
        (List.map lineView) =
      some [(fTranscript, a + 1, b, dotStr), (fExon, a + 1, b, dotStr),
            (fCDS, a + 1, b - 3, "0"), (fStartCodon, a + 1, a + 3, "0"),
            (fStopCodon, b - 2, b, "0")] := by
  have hff := find_first_mkR c n a b (by omega)
  have hfl := find_last_mkR c n a b (by omega) h3
  have hmp := move_pos_mkR_back3 c n a b (by omega)
  have hccf : codon_complete ⟨a, a + 3, 0, 0, 0⟩ := by simp only [codon_complete]; omega
  have hccl : codon_complete ⟨b - 3, b, 0, 0, 0⟩ := by simp only [codon_complete]; omega
  have hab : a < b := by omega
  have hacd : a < b - 3 := by omega
  have hmin : min b (b - 3) = b - 3 := by omega
  have hb2 : b - 3 + 1 = b - 2 := by ring
  have hr1 : List.range 1 = [0] := rfl
  simp [to_gtf, exonLinesGo, write_features, write_codon, build_gtf_line, lineView, featPfx,
    phase_of, mkR_name, mkR_strand, mkR_txStart, mkR_txEnd, mkR_cdsStart, mkR_cdsEnd,
    mkR_exonCount, mkR_S0, mkR_E0, mkR_F0, fTranscript, fExon, fCDS, fStartCodon, fStopCodon,
    fUTR5, fUTR3, fGene, plusStrand, minusStrand, dotStr,
    hff, hfl, hmp, hccf, hccl, hab, hacd, hmin, hb2, hr1]

/-- C2 counterexample: on the fully coding single-exon record `[0,6)` the
emitted CDS line spans `[1,3]`, not the exon's identical span `[1,6]`
demanded by the claim, and no CDS line over `[1,6]` appears at all. -/
theorem c2_counterexample :
    (to_gtf rC2 isoDemo false).map (List.map lineView) =
      some [(fTranscript, 1, 6, dotStr), (fExon, 1, 6, dotStr), (fCDS, 1, 3, "0"),
            (fStartCodon, 1, 3, "0"), (fStopCodon, 4, 6, "0")] ∧
    (fCDS, (1:Int), (6:Int), "0") ∉
      [(fTranscript, (1:Int), (6:Int), dotStr), (fExon, 1, 6, dotStr), (fCDS, 1, 3, "0"),
       (fStartCodon, 1, 3, "0"), (fStopCodon, 4, 6, "0")] := by
  constructor
  · have hff := find_first_mkR "c" "t" 0 6 (by omega)
    have hfl := find_last_mkR "c" "t" 0 6 (by omega) (by decide)
    have hmp := move_pos_mkR_back3 "c" "t" 0 6 (by omega)
    have hccf : codon_complete ⟨0, 3, 0, 0, 0⟩ := by decide
    have hccl : codon_complete ⟨3, 6, 0, 0, 0⟩ := by decide
    have hr1 : List.range 1 = [0] := rfl
    show (to_gtf (mkR "c" "t" 0 6) (fun s => if s = "t" then some "g" else none) false).map
        (List.map lineView) = _
    simp [to_gtf, exonLinesGo, write_features, write_codon, build_gtf_line, lineView, featPfx,
      phase_of, mkR_name, mkR_strand, mkR_txStart, mkR_txEnd, mkR_cdsStart, mkR_cdsEnd,
      mkR_exonCount, mkR_S0, mkR_E0, mkR_F0, fTranscript, fExon, fCDS, fStartCodon, fStopCodon,
      fUTR5, fUTR3, fGene, plusStrand, minusStrand, dotStr,
      hff, hfl, hmp, hccf, hccl, hr1]
  · decide

theorem c2_amended_witness :
    (to_gtf (mkR "c" "t" 0 6) (fun s => if s = "t" then some "g" else none) false).map
        (List.map lineView) =
      some [(fTranscript, 1, 6, dotStr), (fExon, 1, 6, dotStr), (fCDS, 1, 3, "0"),
            (fStartCodon, 1, 3, "0"), (fStopCodon, 4, 6, "0")] := by
  have h := c2_amended "c" "t" "g" 0 6 (by omega) (by decide)
  simpa using h

theorem cumLen_nonneg (r : BedRecord) (hinv : ExonInv r) :
    ∀ i, i ≤ exonCount r → 0 ≤ cumLen r i := by
  intro i
  induction i with
  | zero => intro _; simp [cumLen]
  | succ i ih =>
    intro hi
    have h1 := ih (by omega)
    have h2 := hinv.2.1 i (by omega)
    simp only [cumLen]
    omega

theorem cumLen_mono (r : BedRecord) (hinv : ExonInv r) :
    ∀ i j, i ≤ j → j ≤ exonCount r → cumLen r i ≤ cumLen r j := by
  intro i j
  induction j with
  | zero => intro h _; interval_cases i; omega
  | succ j ih =>
    intro hij hj
    rcases Nat.lt_or_ge i (j + 1) with h | h
    · have h1 := ih (by omega) (by omega)
      have h2 := hinv.2.1 j (by omega)
      simp only [cumLen]
      omega
    · have : i = j + 1 := by omega
      subst this
      omega

theorem exon_chain (r : BedRecord) (hinv : ExonInv r) :
    ∀ a b, a < b → b < exonCount r → idx r.exonEnd a ≤ idx r.exonStart b := by
  intro a b
  induction b with
  | zero => intro h _; omega
  | succ b ih =>
    intro hab hb
    rcases Nat.lt_or_ge a b with h | h
    · have h1 := ih h (by omega)
      have h2 := hinv.2.1 b (by omega)
      have h3 := hinv.2.2.1 b hb
      omega
    · have : a = b := by omega
      subst this
      exact hinv.2.2.1 a hb

theorem exon_chain_strict (r : BedRecord) (hinv : ExonInv r) (a b : Nat)
    (hab : a + 2 ≤ b) (hb : b < exonCount r) : idx r.exonEnd a < idx r.exonStart b := by
  have h1 := exon_chain r hinv a (a + 1) (by omega) (by omega)
  have h2 := hinv.2.1 (a + 1) (by omega)
  have h3 : idx r.exonEnd (a + 1) ≤ idx r.exonStart b := by
    rcases Nat.lt_or_ge (a + 1) b with h | h
    · exact exon_chain r hinv (a + 1) b h hb
    · have : a + 1 = b := by omega
      subst this; omega
  omega

theorem tval_consist_lt (r : BedRecord) (hinv : ExonInv r) {i j : Nat} {pos : Int}
    (hij : i < j) (hj : j < exonCount r) (hpi : in_exon r pos i) (hpj : in_exon r pos j) :
    cumLen r i + (pos - idx r.exonStart i) = cumLen r j + (pos - idx r.exonStart j) := by
  have hES := exon_chain r hinv i j hij hj
  have hpe : pos = idx r.exonEnd i := by
    have := hpi.2
    have := hpj.1
    omega
  have hps : pos = idx r.exonStart j := by
    have := hpi.2
    have := hpj.1
    omega
  have hj1 : j = i + 1 := by
    by_contra hne
    have := exon_chain_strict r hinv i j (by omega) hj
    omega
  subst hj1
  simp only [cumLen]
  omega

theorem tval_consist (r : BedRecord) (hinv : ExonInv r) {i j : Nat} {pos : Int}
    (hi : i < exonCount r) (hj : j < exonCount r)
    (hpi : in_exon r pos i) (hpj : in_exon r pos j) :
    cumLen r i + (pos - idx r.exonStart i) = cumLen r j + (pos - idx r.exonStart j) := by
  rcases Nat.lt_trichotomy i j with h | h | h
  · exact tval_consist_lt r hinv h hj hpi hpj
  · subst h; rfl
  · exact (tval_consist_lt r hinv h hi hpj hpi).symm

theorem tval_inj (r : BedRecord) (hinv : ExonInv r) {i j : Nat} {pos q : Int}
    (hi : i < exonCount r) (hj : j < exonCount r)
    (h1 : idx r.exonStart i ≤ pos) (h2 : pos < idx r.exonEnd i)
    (h3 : idx r.exonStart j ≤ q) (h4 : q < idx r.exonEnd j)
    (heq : cumLen r i + (pos - idx r.exonStart i) = cumLen r j + (q - idx r.exonStart j)) :
    pos = q := by
  have key : ∀ a b : Nat, a < b → b < exonCount r →
      ∀ x y : Int, idx r.exonStart a ≤ x → x < idx r.exonEnd a → idx r.exonStart b ≤ y →
      cumLen r a + (x - idx r.exonStart a) < cumLen r b + (y - idx r.exonStart b) := by
    intro a b hab hb x y hx1 hx2 hy
    have hm : cumLen r (a + 1) ≤ cumLen r b := cumLen_mono r hinv (a + 1) b (by omega) (by omega)
    have : cumLen r (a + 1) = cumLen r a + (idx r.exonEnd a - idx r.exonStart a) := by
      simp [cumLen]
    omega
  rcases Nat.lt_trichotomy i j with h | h | h
  · have := key i j h hj pos q h1 h2 h3
    omega
  · subst h; omega
  · have := key j i h hi q pos h3 h4 h1
    omega

theorem findExonIdx_spec (r : BedRecord) {pos : Int} {j : Nat}
    (h : findExonIdx r pos = some j) : j < exonCount r ∧ in_exon r pos j := by
  unfold findExonIdx at h
  have h1 := List.find?_some h
  have h2 := List.mem_of_find?_eq_some h
  simp only [decide_eq_true_eq] at h1
  exact ⟨List.mem_range.mp h2, h1⟩

theorem findExonIdx_exists (r : BedRecord) {pos : Int} {i : Nat}
    (hi : i < exonCount r) (hin : in_exon r pos i) : ∃ j, findExonIdx r pos = some j := by
  cases hf : findExonIdx r pos with
  | some j => exact ⟨j, rfl⟩
  | none =>
    exfalso
    unfold findExonIdx at hf
    have hnone := List.find?_eq_none.mp hf i (List.mem_range.mpr hi)
    simp only [decide_eq_true_eq] at hnone
    exact hnone hin

theorem fwd_char (r : BedRecord) (hinv : ExonInv r) :
    ∀ (M k i : Nat) (pos p' : Int), k * (exonCount r + 1) + (exonCount r - i) ≤ M →
      i < exonCount r →
      idx r.exonStart i ≤ pos → pos ≤ idx r.exonEnd i →
      movePosLoop r 1 (i : Int) pos k = some p' →
      ∃ j, j < exonCount r ∧ idx r.exonStart j ≤ p' ∧ p' ≤ idx r.exonEnd j ∧
        cumLen r j + (p' - idx r.exonStart j) = cumLen r i + (pos - idx r.exonStart i) + k := by
  intro M
  induction M with
  | zero =>
    intro k i pos p' hM hi h1 h2 hrun
    exfalso
    omega
  | succ M ih =>
    intro k i pos p' hM hi h1 h2 hrun
    rw [movePosLoop.eq_def] at hrun
    have htn : ((i : Int)).toNat = i := by omega
    by_cases hk : 0 < k
    · rw [dif_pos ⟨by positivity, by exact_mod_cast hi, hk⟩, htn] at hrun
      by_cases hstep : in_exon r (pos + 1) i
      · rw [if_pos hstep] at hrun
        obtain ⟨k', rfl⟩ : ∃ k', k = k' + 1 := ⟨k - 1, by omega⟩
        simp only [Nat.add_sub_cancel] at hrun
        have hexp : (k' + 1) * (exonCount r + 1) =
            k' * (exonCount r + 1) + (exonCount r + 1) := by ring
        have hMk : k' * (exonCount r + 1) + (exonCount r - i) ≤ M := by omega
        obtain ⟨j, hj, hj1, hj2, hj3⟩ := ih k' i (pos + 1) p' hMk hi hstep.1 hstep.2 hrun
        refine ⟨j, hj, hj1, hj2, ?_⟩
        push_cast at hj3 ⊢
        omega
      · rw [if_neg hstep] at hrun
        rw [if_pos (by norm_num : (0:Int) ≤ 1)] at hrun
        have hpe : pos = idx r.exonEnd i := by
          have hs : idx r.exonStart i ≤ pos + 1 := by omega
          have hc : ¬ (pos + 1 ≤ idx r.exonEnd i) := fun hc => hstep ⟨hs, hc⟩
          omega
        by_cases hlt : (i : Int) + 1 < (exonCount r : Int)
        · rw [if_pos hlt] at hrun
          have ht2 : ((i : Int) + 1).toNat = i + 1 := by omega
          rw [ht2] at hrun
          have hi1 : i + 1 < exonCount r := by exact_mod_cast hlt
          have hMk : k * (exonCount r + 1) + (exonCount r - (i + 1)) ≤ M := by omega
          obtain ⟨j, hj, hj1, hj2, hj3⟩ := ih k (i + 1) (idx r.exonStart (i + 1)) p' hMk hi1
            (le_refl _) (hinv.2.1 (i + 1) hi1).le hrun
          refine ⟨j, hj, hj1, hj2, ?_⟩
          have hc : cumLen r (i + 1) = cumLen r i + (idx r.exonEnd i - idx r.exonStart i) := by
            simp [cumLen]
          omega
        · rw [if_neg hlt] at hrun
          rw [movePosLoop.eq_def] at hrun
          rw [dif_neg (fun hg => absurd hg.2.1 (by omega))] at hrun
          rw [if_neg (by omega : ¬ k = 0)] at hrun
          simp at hrun
    · have hk0 : k = 0 := by omega
      subst hk0
      rw [dif_neg (fun hg => absurd hg.2.2 (by omega))] at hrun
      rw [if_pos rfl] at hrun
      obtain rfl : pos = p' := Option.some.inj hrun
      exact ⟨i, hi, h1, h2, by push_cast; omega⟩

theorem bwd_char (r : BedRecord) (hinv : ExonInv r) :
    ∀ (k j : Nat) (pos : Int), j < exonCount r →
      idx r.exonStart j ≤ pos → pos ≤ idx r.exonEnd j →
      (k : Int) ≤ cumLen r j + (pos - idx r.exonStart j) →
      ∃ (j' : Nat) (q : Int), j' < exonCount r ∧ idx r.exonStart j' ≤ q ∧ q ≤ idx r.exonEnd j' ∧
        movePosLoop r (-1) (j : Int) pos k = some q ∧
        cumLen r j' + (q - idx r.exonStart j') =
          cumLen r j + (pos - idx r.exonStart j) - k ∧
        (0 < k → q < idx r.exonEnd j') ∧ (k = 0 → j' = j ∧ q = pos) := by
  intro k
  induction k with
  | zero =>
    intro j pos hj h1 h2 hk
    refine ⟨j, pos, hj, h1, h2, ?_, by push_cast; ring, fun h => absurd h (by omega),
      fun _ => ⟨rfl, rfl⟩⟩
    rw [movePosLoop.eq_def]
    rw [dif_neg (fun hg => absurd hg.2.2 (by omega))]
    rw [if_pos rfl]
  | succ k ih =>
    intro j pos hj h1 h2 hk
    have htn : ((j : Int)).toNat = j := by omega
    by_cases hstep : in_exon r (pos - 1) j
    · have hloopstep : movePosLoop r (-1) (j : Int) pos (k + 1) =
          movePosLoop r (-1) (j : Int) (pos - 1) k := by
        rw [movePosLoop.eq_def]
        rw [dif_pos ⟨by positivity, by exact_mod_cast hj, Nat.succ_pos k⟩, htn]
        rw [if_pos (show in_exon r (pos + -1) j by
          rw [show pos + -1 = pos - 1 by ring]; exact hstep)]
        rw [show pos + -1 = pos - 1 by ring]
        simp only [Nat.add_sub_cancel]
      obtain ⟨j', q, hj', hq1, hq2, hloop, hT, hstrict, hzero⟩ :=
        ih j (pos - 1) hj hstep.1 (by omega) (by push_cast at hk ⊢; omega)
      refine ⟨j', q, hj', hq1, hq2, by rw [hloopstep]; exact hloop,
        by push_cast at hT ⊢; omega, ?_, fun h => absurd h (by omega)⟩
      intro _
      rcases Nat.eq_zero_or_pos k with hk0 | hkpos
      · obtain ⟨rfl, rfl⟩ := hzero hk0
        omega
      · exact hstrict hkpos
    · have hps : pos = idx r.exonStart j := by
        have hc : ¬ (idx r.exonStart j ≤ pos - 1) := fun hc => hstep ⟨hc, by omega⟩
        omega
      obtain ⟨j0, rfl⟩ : ∃ j0, j = j0 + 1 := by
        rcases Nat.eq_zero_or_pos j with h0 | hpos1
        · exfalso
          subst h0
          simp only [cumLen] at hk
          omega
        · exact ⟨j - 1, by omega⟩
      have hcum : cumLen r (j0 + 1) = cumLen r j0 + (idx r.exonEnd j0 - idx r.exonStart j0) := by
        simp [cumLen]
      have hE := hinv.2.1 j0 (by omega)
      have hloopstep : movePosLoop r (-1) ((j0 + 1 : Nat) : Int) pos (k + 1) =
          movePosLoop r (-1) (j0 : Int) (idx r.exonEnd j0 - 1) k := by
        rw [movePosLoop.eq_def]
        rw [dif_pos ⟨by positivity, by exact_mod_cast hj, Nat.succ_pos k⟩]
        have htn2 : (((j0 + 1 : Nat) : Int)).toNat = j0 + 1 := by omega
        rw [htn2]
        rw [if_neg (show ¬ in_exon r (pos + -1) (j0 + 1) by
          rw [show pos + -1 = pos - 1 by ring]; exact hstep)]
        rw [if_neg (by norm_num : ¬ (0:Int) ≤ -1)]
        rw [if_pos (show (0:Int) ≤ ((j0 + 1 : Nat) : Int) - 1 by push_cast; omega)]
        have htn3 : (((j0 + 1 : Nat) : Int) - 1).toNat = j0 := by push_cast; omega
        rw [htn3]
        rw [show ((j0 + 1 : Nat) : Int) - 1 = (j0 : Int) by push_cast; ring]
        simp only [Nat.add_sub_cancel]
      obtain ⟨j', q, hj', hq1, hq2, hloop, hT, hstrict, hzero⟩ :=
        ih j0 (idx r.exonEnd j0 - 1) (by omega) (by omega) (by omega)
          (by push_cast at hk ⊢; omega)
      refine ⟨j', q, hj', hq1, hq2, by rw [hloopstep]; exact hloop,
        by push_cast at hT ⊢; omega, ?_, fun h => absurd h (by omega)⟩
      intro _
      rcases Nat.eq_zero_or_pos k with hk0 | hkpos
      · obtain ⟨rfl, rfl⟩ := hzero hk0
        omega
      · exact hstrict hkpos

instance (r : BedRecord) : Decidable (ExonInv r) :=
  decidable_of_iff
    (r.exonStart.length = r.exonEnd.length ∧
     (∀ i, i < exonCount r → idx r.exonStart i < idx r.exonEnd i) ∧
     (∀ i, i < exonCount r → i + 1 < exonCount r → idx r.exonEnd i ≤ idx r.exonStart (i + 1)) ∧
     (∀ i, i < exonCount r → r.txStart ≤ idx r.exonStart i ∧ idx r.exonEnd i ≤ r.txEnd))
    (by
      unfold ExonInv
      constructor
      · rintro ⟨h1, h2, h3, h4⟩
        exact ⟨h1, h2, fun i hi => h3 i (by omega) hi, h4⟩
      · rintro ⟨h1, h2, h3, h4⟩
        exact ⟨h1, h2, fun i _ hi2 => h3 i hi2, h4⟩)

theorem c3_counterexample :
    ExonInv rM ∧ move_pos rM 10 (-1) = some 4 ∧ move_pos rM 4 (-(-1)) = some 5 ∧
      (5 : Int) ≠ 10 := by
  refine ⟨by decide, ?_, ?_, by decide⟩
  · have h1 : findExonIdx rM 10 = some 1 := rfl
    unfold move_pos
    rw [if_pos (by decide : rM.txStart ≤ 10 ∧ (10:Int) ≤ rM.txEnd), h1]
    show movePosLoop rM (if (0:Int) ≤ -1 then 1 else -1) 1 10 (Int.natAbs (-1)) = some 4
    norm_num
    rw [movePosLoop.eq_def]
    norm_num [in_exon, idx, exonCount, rM]
    rw [movePosLoop.eq_def]
    norm_num [in_exon, idx, exonCount, rM]
  · have h1 : findExonIdx rM 4 = some 0 := rfl
    unfold move_pos
    rw [if_pos (by decide : rM.txStart ≤ 4 ∧ (4:Int) ≤ rM.txEnd), h1]
    show movePosLoop rM (if (0:Int) ≤ -(-1) then 1 else -1) 0 4 (Int.natAbs (-(-1))) = some 5
    norm_num
    rw [movePosLoop.eq_def]
    norm_num [in_exon, idx, exonCount, rM]
    rw [movePosLoop.eq_def]
    norm_num [in_exon, idx, exonCount, rM]

theorem c3_amended (r : BedRecord) (hinv : ExonInv r) (pos dist : Int) (hd : 0 ≤ dist)
    (hpos : ∃ m, m < exonCount r ∧ idx r.exonStart m ≤ pos ∧ pos < idx r.exonEnd m)
    (p' : Int) (hrun : move_pos r pos dist = some p') :
    move_pos r p' (-dist) = some pos := by
  obtain ⟨m, hm, hm1, hm2⟩ := hpos
  have hin_m : in_exon r pos m := ⟨hm1, by omega⟩
  unfold move_pos at hrun
  by_cases htx : r.txStart ≤ pos ∧ pos ≤ r.txEnd
  case neg => rw [if_neg htx] at hrun; simp at hrun
  rw [if_pos htx] at hrun
  cases hfi : findExonIdx r pos with
  | none => rw [hfi] at hrun; simp at hrun
  | some i0 =>
  rw [hfi] at hrun
  rw [if_pos hd] at hrun
  replace hrun : movePosLoop r 1 (i0 : Int) pos dist.natAbs = some p' := hrun
  obtain ⟨hi0, hin0⟩ := findExonIdx_spec r hfi
  by_cases hd0 : dist = 0
  · subst hd0
    rw [movePosLoop.eq_def] at hrun
    rw [dif_neg (fun hg => absurd hg.2.2 (by omega))] at hrun
    rw [if_pos Int.natAbs_zero] at hrun
    obtain rfl := Option.some.inj hrun
    rw [neg_zero]
    unfold move_pos
    rw [if_pos htx, hfi]
    show movePosLoop r (if (0:Int) ≤ 0 then 1 else -1) (i0 : Int) pos (Int.natAbs 0) = some pos
    rw [movePosLoop.eq_def]
    simp
  · have hk1 : 0 < dist.natAbs := Int.natAbs_pos.mpr hd0
    obtain ⟨j, hj, hj1, hj2, hjT⟩ := fwd_char r hinv
      (dist.natAbs * (exonCount r + 1) + (exonCount r - i0)) dist.natAbs i0 pos p'
      (le_refl _) hi0 hin0.1 hin0.2 hrun
    have hTpos := tval_consist r hinv hi0 hm hin0 hin_m
    have hbounds := hinv.2.2.2 j hj
    have htx' : r.txStart ≤ p' ∧ p' ≤ r.txEnd := by
      constructor <;> omega
    obtain ⟨j1, hfi'⟩ := findExonIdx_exists r hj ⟨hj1, hj2⟩
    obtain ⟨hj1n, hin1⟩ := findExonIdx_spec r hfi'
    have hTp' := tval_consist r hinv hj1n hj hin1 ⟨hj1, hj2⟩
    unfold move_pos
    rw [if_pos htx', hfi']
    rw [if_neg (by omega : ¬ (0:Int) ≤ -dist)]
    rw [show (-dist).natAbs = dist.natAbs from Int.natAbs_neg dist]
    have hT0 : 0 ≤ cumLen r i0 + (pos - idx r.exonStart i0) := by
      have hnn := cumLen_nonneg r hinv i0 (by omega)
      have := hin0.1
      omega
    have hkle : (dist.natAbs : Int) ≤ cumLen r j1 + (p' - idx r.exonStart j1) := by omega
    obtain ⟨j', q, hj'n, hq1, hq2, hloop, hT', hstrict, _⟩ :=
      bwd_char r hinv dist.natAbs j1 p' hj1n hin1.1 hin1.2 hkle
    show movePosLoop r (-1) (j1 : Int) p' dist.natAbs = some pos
    rw [hloop]
    congr 1
    have hqlt := hstrict hk1
    exact tval_inj r hinv hj'n hm hq1 hqlt hm1 hm2 (by omega)

theorem c3_amended_witness : move_pos rM 2 (-2) = some 0 := by
  have hrun : move_pos rM 0 2 = some 2 := by
    have h1 : findExonIdx rM 0 = some 0 := rfl
    unfold move_pos
    rw [if_pos (by decide : rM.txStart ≤ 0 ∧ (0:Int) ≤ rM.txEnd), h1]
    show movePosLoop rM (if (0:Int) ≤ 2 then 1 else -1) 0 0 (Int.natAbs 2) = some 2
    norm_num
    rw [movePosLoop.eq_def]
    norm_num [in_exon, idx, exonCount, rM]
    rw [movePosLoop.eq_def]
    norm_num [in_exon, idx, exonCount, rM]
    rw [movePosLoop.eq_def]
    norm_num [in_exon, idx, exonCount, rM]
  have h := c3_amended rM (by decide) 0 2 (by decide) ⟨0, by decide, by decide, by decide⟩ 2 hrun
  simpa using h
